import Mathlib

/-!
Verification of the vectorization core of the rag-br repository
(`src/vectorize/{chunking,config,embed,vector_index,vector_store}.py`).

The Python code is shallowly embedded as executable Lean definitions:

* Python `dict`s become association lists (`Dict`) with insert-overwrite
  semantics, Python exceptions become `Except PyErr`, and Python machine
  behaviour (MD5, UTF-8) is implemented bit-for-bit over `Nat`.
* External collaborators (the HuggingFace tokenizer, the
  sentence-transformer model, the Qdrant client) are passed in as explicit
  oracle functions; the repository code around them is translated
  statement by statement.
* Loops are translated as structural recursion with explicit fuel so that
  every definition evaluates by `decide`/`rfl`; sufficiency of the fuel is
  proved where it matters.
-/

set_option autoImplicit false

namespace RagBr

/-- Model of a raised Python exception: its class name and message. -/
structure PyErr where
  className : String
  msg : String
  deriving DecidableEq, Repr

/-- Payload values stored in Qdrant point payloads: the repository stores
strings (doc id, chunk text, metadata) and integers (chunk ordinal). -/
inductive PyVal where
  | s (v : String)
  | n (v : Nat)
  deriving DecidableEq, Repr

/-- Python `dict` modelled as an association list (insertion order kept,
keys unique when built through `Dict.insert`). -/
def Dict (β : Type) : Type := List (String × β)

instance (β : Type) [DecidableEq β] : DecidableEq (Dict β) := by
  unfold Dict; infer_instance

instance (β : Type) : Membership (String × β) (Dict β) := by
  unfold Dict; infer_instance

/-- Lookup of a key in a `Dict` (first matching entry). -/
def Dict.find {β : Type} : Dict β → String → Option β
  | [], _ => none
  | (k, v) :: rest, key => if k = key then some v else Dict.find rest key

/-- Python `d[key] = val`: overwrite the value in place if the key exists,
otherwise append the new entry. -/
def Dict.insert {β : Type} : Dict β → String → β → Dict β
  | [], key, val => [(key, val)]
  | (k, v) :: rest, key, val =>
    if k = key then (k, val) :: rest else (k, v) :: Dict.insert rest key val

/-- Python `d.update(m)` / `{**d, **m}`: insert every entry of `m` into `d`
in order, overwriting on key collision. -/
def Dict.update {β : Type} (d : Dict β) (m : Dict β) : Dict β :=
  m.foldl (fun acc kv => acc.insert kv.1 kv.2) d

/-! ### MD5 over `Nat`

`hashlib.md5(text.encode("utf-8")).hexdigest()` is implemented exactly:
UTF-8 encoding of the characters, MD5 padding, the 64-round compression
function with 32-bit modular arithmetic, and little-endian lowercase hex
output. -/

/-- Truncation to 32 bits. -/
def w32 (n : Nat) : Nat := n % 4294967296

/-- Left rotation of a 32-bit word by `s` bits (`0 ≤ s < 32`). -/
def rotl (x s : Nat) : Nat := (x * 2 ^ s) % 4294967296 + x / 2 ^ (32 - s)

/-- The 64 MD5 sine-derived round constants. -/
def md5K : List Nat :=
  [0xd76aa478, 0xe8c7b756, 0x242070db, 0xc1bdceee,
   0xf57c0faf, 0x4787c62a, 0xa8304613, 0xfd469501,
   0x698098d8, 0x8b44f7af, 0xffff5bb1, 0x895cd7be,
   0x6b901122, 0xfd987193, 0xa679438e, 0x49b40821,
   0xf61e2562, 0xc040b340, 0x265e5a51, 0xe9b6c7aa,
   0xd62f105d, 0x02441453, 0xd8a1e681, 0xe7d3fbc8,
   0x21e1cde6, 0xc33707d6, 0xf4d50d87, 0x455a14ed,
   0xa9e3e905, 0xfcefa3f8, 0x676f02d9, 0x8d2a4c8a,
   0xfffa3942, 0x8771f681, 0x6d9d6122, 0xfde5380c,
   0xa4beea44, 0x4bdecfa9, 0xf6bb4b60, 0xbebfbc70,
   0x289b7ec6, 0xeaa127fa, 0xd4ef3085, 0x04881d05,
   0xd9d4d039, 0xe6db99e5, 0x1fa27cf8, 0xc4ac5665,
   0xf4292244, 0x432aff97, 0xab9423a7, 0xfc93a039,
   0x655b59c3, 0x8f0ccc92, 0xffeff47d, 0x85845dd1,
   0x6fa87e4f, 0xfe2ce6e0, 0xa3014314, 0x4e0811a1,
   0xf7537e82, 0xbd3af235, 0x2ad7d2bb, 0xeb86d391]

/-- The 64 MD5 per-round left-rotation amounts. -/
def md5S : List Nat :=
  [7, 12, 17, 22, 7, 12, 17, 22, 7, 12, 17, 22, 7, 12, 17, 22,
   5, 9, 14, 20, 5, 9, 14, 20, 5, 9, 14, 20, 5, 9, 14, 20,
   4, 11, 16, 23, 4, 11, 16, 23, 4, 11, 16, 23, 4, 11, 16, 23,
   6, 10, 15, 21, 6, 10, 15, 21, 6, 10, 15, 21, 6, 10, 15, 21]

/-- The MD5 round mixing function (F, G, H, I depending on the round). -/
def md5F (i b c d : Nat) : Nat :=
  if i < 16 then Nat.lor (Nat.land b c) (Nat.land (Nat.xor b 4294967295) d)
  else if i < 32 then Nat.lor (Nat.land d b) (Nat.land (Nat.xor d 4294967295) c)
  else if i < 48 then Nat.xor b (Nat.xor c d)
  else Nat.xor c (Nat.lor b (Nat.xor d 4294967295))

/-- The MD5 message-word index for round `i`. -/
def md5G (i : Nat) : Nat :=
  if i < 16 then i
  else if i < 32 then (5 * i + 1) % 16
  else if i < 48 then (3 * i + 5) % 16
  else (7 * i) % 16

/-- One MD5 round applied to the state `(a, b, c, d)`. -/
def md5Round (M : List Nat) (st : Nat × Nat × Nat × Nat) (i : Nat) :
    Nat × Nat × Nat × Nat :=
  let f := w32 (md5F i st.2.1 st.2.2.1 st.2.2.2 + st.1 + md5K.getD i 0 +
    M.getD (md5G i) 0)
  (st.2.2.2, w32 (st.2.1 + rotl f (md5S.getD i 0)), st.2.1, st.2.2.1)

/-- One 512-bit MD5 block: 64 rounds followed by the feed-forward sums. -/
def md5Block (st : Nat × Nat × Nat × Nat) (M : List Nat) :
    Nat × Nat × Nat × Nat :=
  let r := (List.range 64).foldl (md5Round M) st
  (w32 (st.1 + r.1), w32 (st.2.1 + r.2.1), w32 (st.2.2.1 + r.2.2.1),
   w32 (st.2.2.2 + r.2.2.2))

/-- Little-endian byte decomposition of `n` into `k` bytes. -/
def leBytes : Nat → Nat → List Nat
  | 0, _ => []
  | k + 1, n => (n % 256) :: leBytes k (n / 256)

/-- Group a 64-byte block into sixteen little-endian 32-bit words. -/
def toWords : List Nat → List Nat
  | b0 :: b1 :: b2 :: b3 :: rest =>
    (b0 + 256 * b1 + 65536 * b2 + 16777216 * b3) :: toWords rest
  | _ => []

/-- MD5 padding: a 0x80 byte, zeros to 56 mod 64, then the bit length as
eight little-endian bytes. -/
def md5Pad (msg : List Nat) : List Nat :=
  let len := msg.length
  let z := (120 - (len + 1) % 64) % 64
  msg ++ 128 :: List.replicate z 0 ++ leBytes 8 ((len * 8) % 18446744073709551616)

/-- Fueled iteration over the 64-byte blocks of the padded message. -/
def md5BlocksF : Nat → Nat × Nat × Nat × Nat → List Nat → Nat × Nat × Nat × Nat
  | 0, st, _ => st
  | fuel + 1, st, bytes =>
    if bytes = [] then st
    else md5BlocksF fuel (md5Block st (toWords (bytes.take 64))) (bytes.drop 64)

/-- The 16-byte MD5 digest of a byte sequence. -/
def md5Digest (msg : List Nat) : List Nat :=
  let padded := md5Pad msg
  let r := md5BlocksF (padded.length / 64 + 1)
    (0x67452301, 0xefcdab89, 0x98badcfe, 0x10325476) padded
  leBytes 4 r.1 ++ leBytes 4 r.2.1 ++ leBytes 4 r.2.2.1 ++ leBytes 4 r.2.2.2

/-- Lowercase hex character for a nibble. -/
def hexChar (n : Nat) : Char :=
  if n < 10 then Char.ofNat (48 + n) else Char.ofNat (87 + n)

/-- Two lowercase hex characters for a byte. -/
def byteHex (b : Nat) : List Char := [hexChar (b / 16), hexChar (b % 16)]

/-- Lowercase hex digest string of a byte sequence. -/
def md5Hex (msg : List Nat) : String := String.mk ((md5Digest msg).flatMap byteHex)

/-- UTF-8 encoding of one character. -/
def encodeChar (c : Char) : List Nat :=
  let n := c.toNat
  if n < 128 then [n]
  else if n < 2048 then [192 + n / 64, 128 + n % 64]
  else if n < 65536 then [224 + n / 4096, 128 + n / 64 % 64, 128 + n % 64]
  else [240 + n / 262144, 128 + n / 4096 % 64, 128 + n / 64 % 64, 128 + n % 64]

/-- Python `text.encode("utf-8")` as a byte list. -/
def utf8Bytes (s : String) : List Nat := s.data.flatMap encodeChar

/-- Embeds `embed.text_hash`: `hashlib.md5(text.encode("utf-8")).hexdigest()`. -/
def text_hash (s : String) : String := md5Hex (utf8Bytes s)

/-- Embeds `vector_index._hash_document`, whose body is the same MD5 hex
digest of the UTF-8 encoded text. -/
def hashDocument (s : String) : String := md5Hex (utf8Bytes s)

/-! ### Embedder (`src/vectorize/embed.py`)

The sentence-transformer model is an external collaborator; it is passed
in as a deterministic oracle `model : String → List α` assigning one
vector per text (`Embedder.embed` calls `model.encode`, which returns one
row per input text; normalization is folded into the oracle).  Vector
components are an arbitrary type `α`.  The duck-typed `vector_store`
argument of `embed_with_cache` is represented by the behaviour of its
`search_by_id` method, an oracle `sbi : String → List (QPoint α)`; the
local on-disk cache directory (one pickle file per hash) is a `Dict`. -/

/-- A point record as returned by a vector-store id lookup; the code only
reads its `vector` attribute, which may be absent (`None`). -/
structure QPoint (α : Type) where
  vector : Option (List α)

/-- The state an `Embedder` instance carries (copied from a validated
`EmbedderConfig` in `Embedder.__init__`). -/
structure EmbedderM where
  batch_size : Nat
  enable_local_cache : Bool

/-- Embeds `Embedder.embed`: one vector per text, order preserved. -/
def Embedder.embed {α : Type} (model : String → List α) (texts : List String) :
    List (List α) :=
  texts.map model

/-- One iteration of the `_load_existing_embeddings` loop: look the hash up
in the store; keep the first point's vector if it is present, non-`None`,
and non-degenerate (`emb.size > 0 and emb.ndim > 0`; a retrieved vector is
a one-dimensional array, so the check amounts to non-emptiness). -/
def loadExistingStep {α : Type} (sbi : String → List (QPoint α))
    (d : Dict (List α)) (h : String) : Dict (List α) :=
  match sbi h with
  | [] => d
  | p :: _ =>
    match p.vector with
    | none => d
    | some v => if v.isEmpty then d else d.insert h v

/-- Embeds `Embedder._load_existing_embeddings`: fold the step over the
hashes, starting from an empty dict. -/
def Embedder.loadExisting {α : Type} (sbi : String → List (QPoint α))
    (hashes : List String) : Dict (List α) :=
  hashes.foldl (loadExistingStep sbi) []

/-- One iteration of the `_load_cached_embeddings` loop: if a cache file
for the hash exists, load it and keep it when non-empty. -/
def loadCachedStep {α : Type} (cacheDir : Dict (List α))
    (d : Dict (List α)) (h : String) : Dict (List α) :=
  match cacheDir.find h with
  | none => d
  | some emb => if emb.isEmpty then d else d.insert h emb

/-- Embeds `Embedder._load_cached_embeddings`. -/
def Embedder.loadCached {α : Type} (cacheDir : Dict (List α))
    (hashes : List String) : Dict (List α) :=
  hashes.foldl (loadCachedStep cacheDir) []

/-- Embeds `Embedder._cache_embeddings_locally`: write one cache entry per
(hash, embedding) pair. -/
def Embedder.cacheLocally {α : Type} (cacheDir : Dict (List α))
    (hashes : List String) (embeddings : List (List α)) : Dict (List α) :=
  Dict.update cacheDir (hashes.zip embeddings)

/-- Embeds the per-hash content of the batch loop of `embed_with_cache`
(lines 255–271 of `embed.py`), with explicit fuel (one unit per batch;
`batch_size` is validated positive by `EmbedderConfig`, which makes the
fuel used below sufficient — see the lemmas).  State: the hashes still to
embed, the `new_embeddings` dict and the cache directory. -/
def batchLoopF {α : Type} (model : String → List α)
    (texts hashes : List String) (bs : Nat) (enable : Bool) :
    Nat → List String → Dict (List α) → Dict (List α) →
      Dict (List α) × Dict (List α)
  | 0, _, newEmb, cache => (newEmb, cache)
  | fuel + 1, pending, newEmb, cache =>
    if pending = [] then (newEmb, cache)
    else
      let bh := pending.take bs
      -- `texts[hashes.index(h)]`: the text at the first position whose hash is `h`
      let btexts := bh.map fun h => texts.getD (List.indexOf h hashes) ""
      let bembs := Embedder.embed model btexts
      let cache1 := if enable then Embedder.cacheLocally cache bh bembs else cache
      let newEmb1 := Dict.update newEmb (bh.zip bembs)
      batchLoopF model texts hashes bs enable fuel (pending.drop bs) newEmb1 cache1

/-- The `hashes` list of `embed_with_cache`: one content hash per text. -/
def hashesOf (texts : List String) : List String := texts.map text_hash

/-- The `existing_embeddings` dict of `embed_with_cache`. -/
def existingOf {α : Type} (sbi : String → List (QPoint α)) (texts : List String) :
    Dict (List α) :=
  Embedder.loadExisting sbi (hashesOf texts)

/-- The `remaining_hashes` list of `embed_with_cache`. -/
def remainingOf {α : Type} (sbi : String → List (QPoint α)) (texts : List String) :
    List String :=
  (hashesOf texts).filter fun h => ((existingOf sbi texts).find h).isNone

/-- The `cached_embeddings` dict of `embed_with_cache` (consulted only when
local caching is enabled). -/
def cachedOf {α : Type} (E : EmbedderM) (sbi : String → List (QPoint α))
    (cacheDir : Dict (List α)) (texts : List String) : Dict (List α) :=
  if E.enable_local_cache then Embedder.loadCached cacheDir (remainingOf sbi texts)
  else []

/-- The `hashes_to_embed` list of `embed_with_cache`. -/
def hashesToEmbed {α : Type} (E : EmbedderM) (sbi : String → List (QPoint α))
    (cacheDir : Dict (List α)) (texts : List String) : List String :=
  (remainingOf sbi texts).filter fun h =>
    ((cachedOf E sbi cacheDir texts).find h).isNone

/-- Embeds `Embedder.embed_with_cache` (lines 216–283 of `embed.py`),
returning `(hashes, embeddings)` together with the final state of the
local cache directory.  The final combination loop reads
`new_embeddings[h]`, which in Python would raise `KeyError` were the hash
absent; that is unreachable (proved below for positive batch size), and
the embedding here defaults to `[]`.  `np.stack` on an empty list of
embeddings raises in numpy; the model stays total and the claims below
concern non-empty inputs. -/
def Embedder.embed_with_cache {α : Type} (E : EmbedderM)
    (model : String → List α) (sbi : String → List (QPoint α))
    (cacheDir : Dict (List α)) (texts : List String) :
    (List String × List (List α)) × Dict (List α) :=
  let hashes := hashesOf texts
  let existing := existingOf sbi texts
  let cached := cachedOf E sbi cacheDir texts
  let toEmbed := hashesToEmbed E sbi cacheDir texts
  let r := batchLoopF model texts hashes E.batch_size E.enable_local_cache
    toEmbed.length toEmbed [] cacheDir
  let embeddings := hashes.map fun h =>
    match existing.find h with
    | some v => v
    | none =>
      match cached.find h with
      | some v => v
      | none => (r.1.find h).getD []
  ((hashes, embeddings), r.2)

/-- Spec-shaped acceptance of the vector-store tier for one hash: the
first point returned by the id lookup carries a usable vector. -/
def storeAccept {α : Type} (sbi : String → List (QPoint α)) (h : String) :
    Option (List α) :=
  match sbi h with
  | [] => none
  | p :: _ =>
    match p.vector with
    | none => none
    | some v => if v.isEmpty then none else some v

/-- Spec-shaped acceptance of the local-cache tier for one hash. -/
def cacheAccept {α : Type} (cacheDir : Dict (List α)) (h : String) :
    Option (List α) :=
  match cacheDir.find h with
  | none => none
  | some v => if v.isEmpty then none else some v

/-- Spec-shaped per-text resolution, following the specification's words:
first the vector store under the text's content hash, then (only when
local caching is enabled) the on-disk cache, otherwise a fresh
computation via the model. -/
def resolveText {α : Type} (E : EmbedderM) (model : String → List α)
    (sbi : String → List (QPoint α)) (cacheDir : Dict (List α))
    (t : String) : List α :=
  match storeAccept sbi (text_hash t) with
  | some v => v
  | none =>
    if E.enable_local_cache then
      match cacheAccept cacheDir (text_hash t) with
      | some v => v
      | none => model t
    else model t

/-- Semantics of `_load_existing_embeddings` when the `vector_store`
argument is an instance of the repository's own `VectorStore` class: the
loop body evaluates `vector_store.search_by_id(h)`, but `VectorStore`
defines only `search_by_ids`, so the attribute access raises
`AttributeError` at the first iteration.  With no hashes the loop body
never runs and the empty dict is returned. -/
def loadExistingActual (α : Type) : List String → Except PyErr (Dict (List α))
  | [] => Except.ok []
  | _ :: _ =>
    Except.error ⟨"AttributeError", "'VectorStore' object has no attribute 'search_by_id'"⟩

/-- Remainder of `embed_with_cache` after `existing_embeddings` has been
obtained (lines 241–283 of `embed.py`), shared between the oracle model
and the actual-composition model. -/
def embedCombine {α : Type} (E : EmbedderM) (model : String → List α)
    (existing : Dict (List α)) (cacheDir : Dict (List α))
    (texts : List String) : (List String × List (List α)) × Dict (List α) :=
  let hashes := hashesOf texts
  let remaining := hashes.filter fun h => (existing.find h).isNone
  let cached := if E.enable_local_cache then Embedder.loadCached cacheDir remaining
    else []
  let toEmbed := remaining.filter fun h => (cached.find h).isNone
  let r := batchLoopF model texts hashes E.batch_size E.enable_local_cache
    toEmbed.length toEmbed [] cacheDir
  let embeddings := hashes.map fun h =>
    match existing.find h with
    | some v => v
    | none =>
      match cached.find h with
      | some v => v
      | none => (r.1.find h).getD []
  ((hashes, embeddings), r.2)

/-- Embeds `Embedder.embed_with_cache` as actually composed with the
repository's `VectorStore` (the `vector_store` parameter's declared type):
the vector-store tier is `loadExistingActual`, whose `AttributeError`
propagates out of `embed_with_cache` uncaught. -/
def embedWithCacheActual {α : Type} (E : EmbedderM) (model : String → List α)
    (cacheDir : Dict (List α)) (texts : List String) :
    Except PyErr ((List String × List (List α)) × Dict (List α)) :=
  match loadExistingActual α (hashesOf texts) with
  | Except.error e => Except.error e
  | Except.ok existing => Except.ok (embedCombine E model existing cacheDir texts)

/-! ### Chunker (`src/vectorize/chunking.py`) and its configuration
(`src/vectorize/config.py`)

The HuggingFace tokenizer is an external collaborator; its output for a
text is a record of token ids and character-offset pairs.  `chunk_size`
and `overlap` are Python ints used as non-negative counts; they are
modelled as `Nat` (the `overlap < 0` validation branch of
`ChunkerConfig.__post_init__` is unrepresentable and therefore omitted). -/

/-- Embeds the `ChunkerConfig` dataclass fields. -/
structure ChunkerConfig where
  chunk_size : Nat
  overlap : Nat
  deriving DecidableEq, Repr

/-- Embeds `ChunkerConfig.__post_init__`: raise `ValueError` unless
`chunk_size > 0` and `overlap < chunk_size`. -/
def ChunkerConfig.validate (c : ChunkerConfig) : Except PyErr Unit :=
  if c.chunk_size = 0 then Except.error ⟨"ValueError", "chunk_size deve ser positivo"⟩
  else if c.chunk_size ≤ c.overlap then
    Except.error ⟨"ValueError", "overlap deve ser menor que chunk_size"⟩
  else Except.ok ()

/-- Tokenizer output with offset mapping, as consumed by `Chunker.chunk`
(`input_ids` and `offset_mapping` have equal length for a real
tokenizer, but the model does not rely on that). -/
structure TokenizerOut where
  input_ids : List Nat
  offset_mapping : List (Nat × Nat)
  deriving DecidableEq, Repr

/-- Python character slice `text[a:b]` for non-negative bounds. -/
def pySlice (text : List Char) (a b : Nat) : List Char := (text.drop a).take (b - a)

/-- Python `not text or not text.strip()`: the text is empty or all
whitespace. -/
def pyBlank (text : String) : Bool := text.data.all Char.isWhitespace

/-- The chunk slice taken at token position `start` (lines 84–88 of
`chunking.py`): `chunk_offsets = offsets[start:start+chunk_size]`, then
`text[chunk_offsets[0][0]:chunk_offsets[-1][1]]`.  Indexing an empty
offset slice would raise in Python; the model defaults to `(0, 0)` there,
which cannot happen while `start < len(input_ids)` and the tokenizer
returns one offset pair per token. -/
def tokenSlice (text : List Char) (offsets : List (Nat × Nat)) (cs start : Nat) :
    List Char :=
  let co := (offsets.drop start).take cs
  pySlice text (co.headD (0, 0)).1 ((co.getLast?.getD (0, 0)).2)

/-- The `while start < len(input_ids)` loop of `Chunker.chunk` (lines
81–93), with explicit fuel (one unit per iteration; `none` means the fuel
ran out before the loop finished).  Blank slices are dropped, `start`
advances by `chunk_size - overlap`. -/
def chunkLoopF (cs ol : Nat) (text : List Char) (offsets : List (Nat × Nat))
    (n : Nat) : Nat → Nat → Option (List String)
  | 0, _ => none
  | fuel + 1, start =>
    if start < n then
      let chunk := tokenSlice text offsets cs start
      match chunkLoopF cs ol text offsets n fuel (start + (cs - ol)) with
      | none => none
      | some rest =>
        some (if chunk.all Char.isWhitespace then rest else String.mk chunk :: rest)
    else some []

/-- Embeds `Chunker.chunk` for a given tokenizer output: blank text and
empty tokenizations give `[]`; otherwise the chunking loop runs from
token index 0.  The fuel `n + 1` is sufficient whenever
`overlap < chunk_size` (proved below). -/
def Chunker.chunk (cs ol : Nat) (tok : TokenizerOut) (text : String) :
    List String :=
  if pyBlank text then []
  else if tok.input_ids.isEmpty then []
  else
    let n := tok.input_ids.length
    (chunkLoopF cs ol text.data tok.offset_mapping n (n + 1) 0).getD []

/-- Spec-shaped list of chunk start offsets: starting at 0 and advancing
by `step`, all starts below the token count `n` (fueled the same way as
the loop). -/
def chunkStartsF (step n : Nat) : Nat → Nat → List Nat
  | 0, _ => []
  | fuel + 1, start =>
    if start < n then start :: chunkStartsF step n fuel (start + step) else []

/-- The chunk start offsets produced for `n` tokens with step `step`. -/
def chunkStarts (step n : Nat) : List Nat := chunkStartsF step n (n + 1) 0

/-! ### Vector store (`src/vectorize/vector_store.py`)

The Qdrant client is external; its documented semantics (spec §4.3/§6:
upsert is keyed by point id and overwrites, scroll filters on
payload-field equality) are modelled over an explicit list of stored
points. -/

/-- A point as assembled by `index_document` and stored by `upsert`:
`id`, `vector`, `payload`. -/
structure Point (α : Type) where
  id : String
  vector : List α
  payload : Dict PyVal

/-- Upsert of one point: the write is keyed by `id` and overwrites any
existing point with the same id (Qdrant semantics per the spec). -/
def upsertOne {α : Type} (s : List (Point α)) (p : Point α) : List (Point α) :=
  s.filter (fun q => q.id != p.id) ++ [p]

/-- Embeds `VectorStore.upsert` for a batch of points. -/
def VectorStore.upsert {α : Type} (s : List (Point α)) (ps : List (Point α)) :
    List (Point α) :=
  ps.foldl upsertOne s

/-- Number of stored points carrying the given id. -/
def countId {α : Type} (s : List (Point α)) (i : String) : Nat :=
  (s.filter fun p => p.id = i).length

/-- A stored payload matches a filter when every filter entry equals the
corresponding payload field (`models.FieldCondition` with `MatchValue`,
all under `must`). -/
def matchesFilter (payload filt : Dict PyVal) : Bool :=
  filt.all fun kv => payload.find kv.1 = some kv.2

/-- Embeds `VectorStore.search_by_filter`: scroll the collection for
points whose payload matches the filter, up to `limit` results. -/
def VectorStore.search_by_filter {α : Type} (s : List (Point α))
    (filt : Dict PyVal) (limit : Nat) : List (Point α) :=
  (s.filter fun p => matchesFilter p.payload filt).take limit

/-- Embeds `VectorStore.document_exists`: filter on `doc_id` plus all
metadata entries (limit 50) and return the number of matches. -/
def VectorStore.document_exists {α : Type} (s : List (Point α))
    (doc_id : String) (metadata : Dict PyVal) : Nat :=
  let filterDict := Dict.update [("doc_id", PyVal.s doc_id)] metadata
  (VectorStore.search_by_filter s filterDict 50).length

/-! ### Vector index orchestration (`src/vectorize/vector_index.py`) -/

/-- Embeds the `IndexResult` dataclass (the repository declares identical
copies in `vector_index.py` and `config.py`). -/
structure IndexResult where
  doc_id : String
  status : String
  message : Option String
  chunks_total : Nat
  chunks_indexed : Nat
  deriving DecidableEq, Repr

/-- Embeds the `ModelConfig` dataclass fields. -/
structure ModelConfig where
  model_name : String
  device : String
  deriving DecidableEq, Repr

/-- Embeds the `EmbedderConfig` dataclass fields. -/
structure EmbedderConfig where
  batch_size : Nat
  local_cache_dir : Option String
  cache_limit_size : Nat
  enable_local_cache : Bool
  deriving DecidableEq, Repr

/-- Embeds the `VectorStoreConfig` dataclass fields. -/
structure VectorStoreConfig where
  collection_name : String
  path : String
  distance_metric : String
  deriving DecidableEq, Repr

/-- Embeds the `VectorIndexConfig` dataclass fields. -/
structure VectorIndexConfig where
  model : ModelConfig
  chunker : ChunkerConfig
  embedder : EmbedderConfig
  vector_store : VectorStoreConfig
  deriving DecidableEq, Repr

/-- The state a constructed `Chunker` holds (tokenizer handle aside). -/
structure ChunkerRec where
  chunk_size : Nat
  overlap : Nat
  deriving DecidableEq, Repr

/-- The state a constructed `Embedder` holds (model handle aside). -/
structure EmbedderRec where
  batch_size : Nat
  enable_local_cache : Bool
  local_cache_dir : Option String
  deriving DecidableEq, Repr

/-- The state a constructed `VectorStore` holds (client handle aside). -/
structure StoreRec where
  collection_name : String
  path : String
  vector_size : Nat
  distance_metric : String
  deriving DecidableEq, Repr

/-- The fields of a `VectorIndex` instance (`__init__` sets them all to
`None`/`False`). -/
structure VectorIndexSt where
  chunker : Option ChunkerRec
  embedder : Option EmbedderRec
  vector_store : Option StoreRec
  config : Option VectorIndexConfig
  initialized : Bool
  deriving DecidableEq, Repr

/-- The error raised by `VectorIndex.assert_initialized`. -/
def pyNotInit : PyErr :=
  ⟨"RuntimeError", "VectorIndex não inicializado. Chame `initialize()` antes de usar."⟩

/-- The valid distance metrics checked by `VectorStore._ensure_collection`. -/
def validMetrics : List String := ["cosine", "euclidean", "dot"]

/-- Embeds `VectorIndex.initialize`: a no-op when already initialized
(lines 81–82), otherwise store the config and construct the three
components, the store construction validating the distance metric.  The
embedding-model dimension used for the store is supplied by the oracle
`modelDim`; failures of the external loaders themselves (model download
and the like) are not modelled. -/
def VectorIndexSt.setup (modelDim : String → Nat) (ix : VectorIndexSt)
    (cfg : VectorIndexConfig) : Except PyErr VectorIndexSt :=
  if ix.initialized then Except.ok ix
  else if validMetrics.contains cfg.vector_store.distance_metric then
    Except.ok
      { chunker := some ⟨cfg.chunker.chunk_size, cfg.chunker.overlap⟩
        embedder := some ⟨cfg.embedder.batch_size, cfg.embedder.enable_local_cache,
          cfg.embedder.local_cache_dir⟩
        vector_store := some ⟨cfg.vector_store.collection_name, cfg.vector_store.path,
          modelDim cfg.model.model_name, cfg.vector_store.distance_metric⟩
        config := some cfg
        initialized := true }
  else Except.error ⟨"ValueError", "distance_metric deve ser um de: cosine, euclidean, dot"⟩

/-- The mutable world `index_document` threads through its collaborators:
the vector-store collection and the on-disk embedding cache. -/
structure Sys (α : Type) where
  store : List (Point α)
  cacheDir : Dict (List α)

/-- The effectful operations `index_document`/`search` invoke on the
initialized components (`self.chunker`, `self.embedder`,
`self.vector_store`).  Each is a function of the current world, returning
a Python result (or a raised exception) and the new world. -/
structure Steps (α : Type) where
  chunkStep : String → Except PyErr (List String)
  probeStep : String → Dict PyVal → Sys α → Except PyErr Nat × Sys α
  embedStep : List String → Sys α → Except PyErr (List String × List (List α)) × Sys α
  upsertStep : List (Point α) → Sys α → Except PyErr Unit × Sys α
  queryEmbedStep : String → Except PyErr (List α)
  queryStep : List α → Nat → Sys α → Except PyErr (List (Point α)) × Sys α

/-- The payload built for one chunk (lines 172–179 of `vector_index.py`):
a Python dict literal listing the reserved keys first and then splatting
the caller metadata, which therefore overwrites on key collision. -/
def buildPayload (doc_id : String) (idx : Nat) (chunk : String)
    (metadata : Dict PyVal) : Dict PyVal :=
  Dict.update
    [("doc_id", PyVal.s doc_id), ("chunk_id", PyVal.n idx), ("chunk_text", PyVal.s chunk)]
    metadata

/-- The payload list built by the `for idx, chunk in enumerate(chunks)`
loop. -/
def buildPayloads (doc_id : String) (chunks : List String)
    (metadata : Dict PyVal) : List (Dict PyVal) :=
  chunks.enum.map fun ic => buildPayload doc_id ic.1 ic.2 metadata

/-- The point list assembled from `zip(hashes, embeddings, payloads)`
(lines 186–194 of `vector_index.py`). -/
def assemblePoints {α : Type} (hashes : List String)
    (embeddings : List (List α)) (payloads : List (Dict PyVal)) :
    List (Point α) :=
  (hashes.zip (embeddings.zip payloads)).map fun hep => ⟨hep.1, hep.2.1, hep.2.2⟩

/-- The `try` block of `index_document` (lines 157–212): chunking,
payload building, embedding, point assembly, upsert; each early return is
an `Except.ok` result, each raised exception an `Except.error` alongside
the world at the point of failure. -/
def indexTryBody {α : Type} (S : Steps α) (sys : Sys α) (doc_id text : String)
    (metadata : Dict PyVal) : Except PyErr IndexResult × Sys α :=
  match S.chunkStep text with
  | Except.error e => (Except.error e, sys)
  | Except.ok chunks =>
    if chunks.isEmpty then
      (Except.ok ⟨doc_id, "skipped", some "Chunking returned empty", 0, 0⟩, sys)
    else
      let payloads := buildPayloads doc_id chunks metadata
      match S.embedStep chunks sys with
      | (Except.error e, sys1) => (Except.error e, sys1)
      | (Except.ok he, sys1) =>
        let points := assemblePoints he.1 he.2 payloads
        if points.isEmpty then
          (Except.ok ⟨doc_id, "skipped", some "No points to upsert", chunks.length, 0⟩,
            sys1)
        else
          match S.upsertStep points sys1 with
          | (Except.error e, sys2) => (Except.error e, sys2)
          | (Except.ok _, sys2) =>
            (Except.ok ⟨doc_id, "indexed", some "Document indexed successfully",
              chunks.length, points.length⟩, sys2)

/-- The `except Exception` clause of `index_document` (lines 214–219):
convert any exception of the `try` block into a `failed` result carrying
the exception class name and message (`doc_id` is always bound by the
time the `try` block is entered). -/
def indexCatch {α : Type} (doc_id : String)
    (r : Except PyErr IndexResult × Sys α) : Except PyErr IndexResult × Sys α :=
  match r with
  | (Except.error e, sys) =>
    (Except.ok ⟨doc_id, "failed", some (e.className ++ ": " ++ e.msg), 0, 0⟩, sys)
  | ok => ok

/-- Embeds `VectorIndex.index_document` (lines 112–219): assert
initialization, reject blank text, derive the document id by content
hash, probe for an existing document when `skip_existing` and not
`force_reindex` (this probe sits outside the `try` block), then run the
guarded indexing body. -/
def VectorIndex.index_document {α : Type} (ix : VectorIndexSt) (S : Steps α)
    (sys : Sys α) (text : String) (metadata : Dict PyVal)
    (skip_existing force_reindex : Bool) : Except PyErr IndexResult × Sys α :=
  if !ix.initialized then (Except.error pyNotInit, sys)
  else if pyBlank text then
    (Except.ok ⟨"N/A", "skipped", some "Empty or whitespace-only text", 0, 0⟩, sys)
  else
    let doc_id := hashDocument text
    if skip_existing && !force_reindex then
      match S.probeStep doc_id metadata sys with
      | (Except.error e, sys1) => (Except.error e, sys1)
      | (Except.ok found, sys1) =>
        if 0 < found then
          (Except.ok ⟨doc_id, "skipped", some "Document already indexed", 0, found⟩,
            sys1)
        else indexCatch doc_id (indexTryBody S sys1 doc_id text metadata)
    else indexCatch doc_id (indexTryBody S sys doc_id text metadata)

/-- Embeds `VectorIndex.search` (lines 221–236): assert initialization,
embed the query as a single-item batch, delegate to the store's
nearest-neighbour search.  No `try` block here: exceptions propagate. -/
def VectorIndex.search {α : Type} (ix : VectorIndexSt) (S : Steps α)
    (sys : Sys α) (query : String) (top_k : Nat) :
    Except PyErr (List (Point α)) × Sys α :=
  if !ix.initialized then (Except.error pyNotInit, sys)
  else
    match S.queryEmbedStep query with
    | Except.error e => (Except.error e, sys)
    | Except.ok v => S.queryStep v top_k sys

/-- The chunking step as the initialized pipeline performs it:
`self.chunker.chunk(text)` with the tokenizer oracle `tok` (whose own
failures propagate). -/
def chunkStepOf (cs ol : Nat) (tok : String → Except PyErr TokenizerOut) :
    String → Except PyErr (List String) :=
  fun text =>
    if pyBlank text then Except.ok []
    else
      match tok text with
      | Except.error e => Except.error e
      | Except.ok t => Except.ok (Chunker.chunk cs ol t text)

/-- The existence probe as the initialized pipeline performs it:
`self.vector_store.document_exists(doc_id, metadata)`, a read-only scroll
over the collection. -/
def probeStepOf {α : Type} : String → Dict PyVal → Sys α →
    Except PyErr Nat × Sys α :=
  fun doc_id metadata sys =>
    (Except.ok (VectorStore.document_exists sys.store doc_id metadata), sys)

/-- The upsert step as the initialized pipeline performs it:
`self.vector_store.upsert(points)`. -/
def upsertStepOf {α : Type} : List (Point α) → Sys α →
    Except PyErr Unit × Sys α :=
  fun points sys =>
    (Except.ok (), { store := VectorStore.upsert sys.store points,
                     cacheDir := sys.cacheDir })

/-- Semantics of line 182 of `vector_index.py`,
`self.embedder.embed_with_cache(chunks)`: the method
`Embedder.embed_with_cache(self, texts, vector_store)` declares
`vector_store` as a required positional parameter, so this call raises
`TypeError` before any embedding work happens (message as printed by
CPython 3.10+). -/
def embedStepCallsite {α : Type} : List String → Sys α →
    Except PyErr (List String × List (List α)) × Sys α :=
  fun _ sys =>
    (Except.error ⟨"TypeError",
      "Embedder.embed_with_cache() missing 1 required positional argument: 'vector_store'"⟩,
     sys)

/-! ### Helper lemmas: dictionaries and keyed folds -/

theorem Dict.find_insert {β : Type} (d : Dict β) (k : String) (v : β) (key : String) :
    (d.insert k v).find key = if k = key then some v else d.find key := by
  induction d with
  | nil => simp [Dict.insert, Dict.find]
  | cons kv rest ih =>
    obtain ⟨k0, v0⟩ := kv
    by_cases hk : k0 = k
    · subst hk
      by_cases hkey : k0 = key <;> simp [Dict.insert, Dict.find, hkey]
    · by_cases hkey : k0 = key
      · subst hkey
        simp [Dict.insert, hk, Dict.find, Ne.symm hk]
      · simp [Dict.insert, hk, Dict.find, hkey, ih]

/-- A keyed conditional insertion step: insert `f k` at `k` when present. -/
def optStep {β : Type} (f : String → Option β) (d : Dict β) (k : String) : Dict β :=
  match f k with
  | some v => d.insert k v
  | none => d

theorem foldl_optStep_find {β : Type} (f : String → Option β) (l : List String)
    (d : Dict β) (h : String) :
    ((l.foldl (optStep f) d).find h) =
      match f h with
      | some v => if h ∈ l then some v else d.find h
      | none => d.find h := by
  induction l generalizing d with
  | nil =>
    cases hf : f h <;> simp [hf]
  | cons a l ih =>
    simp only [List.foldl_cons]
    rw [ih]
    by_cases hah : a = h
    · subst hah
      cases hf : f a with
      | none => simp [optStep, hf]
      | some v =>
        by_cases hml : a ∈ l <;>
          simp [optStep, hf, Dict.find_insert, hml]
    · have hda : (optStep f d a).find h = d.find h := by
        cases hfa : f a with
        | none => simp [optStep, hfa]
        | some w => simp [optStep, hfa, Dict.find_insert, hah]
      have hmem : (h ∈ a :: l) ↔ (h ∈ l) := by
        constructor
        · intro hh
          rcases List.mem_cons.mp hh with h1 | h2
          · exact absurd h1.symm hah
          · exact h2
        · exact List.mem_cons_of_mem a
      cases hf : f h with
      | none => simp only [hf, hda]
      | some v =>
        simp only [hf, hda]
        by_cases hml : h ∈ l
        · rw [if_pos hml, if_pos (hmem.mpr hml)]
        · rw [if_neg hml, if_neg (fun hh => hml (hmem.mp hh))]

theorem loadExistingStep_eq_optStep {α : Type} (sbi : String → List (QPoint α))
    (d : Dict (List α)) (h : String) :
    loadExistingStep sbi d h = optStep (storeAccept sbi) d h := by
  unfold loadExistingStep optStep storeAccept
  cases hsbi : sbi h with
  | nil => rfl
  | cons p rest =>
    obtain ⟨pv⟩ := p
    cases pv with
    | none => rfl
    | some v => cases v <;> rfl

theorem loadCachedStep_eq_optStep {α : Type} (cacheDir : Dict (List α))
    (d : Dict (List α)) (h : String) :
    loadCachedStep cacheDir d h = optStep (cacheAccept cacheDir) d h := by
  unfold loadCachedStep optStep cacheAccept
  cases hcd : Dict.find cacheDir h with
  | none => rfl
  | some v => cases v <;> rfl

theorem loadExisting_find {α : Type} (sbi : String → List (QPoint α))
    (hashes : List String) (h : String) :
    (Embedder.loadExisting sbi hashes).find h =
      match storeAccept sbi h with
      | some v => if h ∈ hashes then some v else none
      | none => none := by
  have : Embedder.loadExisting sbi hashes = hashes.foldl (optStep (storeAccept sbi)) [] := by
    unfold Embedder.loadExisting
    congr 1
    funext d k
    exact loadExistingStep_eq_optStep sbi d k
  rw [this, foldl_optStep_find]
  cases storeAccept sbi h <;> simp [Dict.find]

theorem loadCached_find {α : Type} (cacheDir : Dict (List α))
    (hashes : List String) (h : String) :
    (Embedder.loadCached cacheDir hashes).find h =
      match cacheAccept cacheDir h with
      | some v => if h ∈ hashes then some v else none
      | none => none := by
  have : Embedder.loadCached cacheDir hashes =
      hashes.foldl (optStep (cacheAccept cacheDir)) [] := by
    unfold Embedder.loadCached
    congr 1
    funext d k
    exact loadCachedStep_eq_optStep cacheDir d k
  rw [this, foldl_optStep_find]
  cases cacheAccept cacheDir h <;> simp [Dict.find]

theorem update_zip_map_find {β : Type} (g : String → β) (l : List String)
    (d : Dict β) (h : String) :
    (Dict.update d (l.zip (l.map g))).find h =
      if h ∈ l then some (g h) else d.find h := by
  have : Dict.update d (l.zip (l.map g)) = l.foldl (optStep (fun k => some (g k))) d := by
    unfold Dict.update
    induction l generalizing d with
    | nil => rfl
    | cons a l ih => simp only [List.zip_cons_cons, List.map_cons, List.foldl_cons, ih, optStep]
  rw [this, foldl_optStep_find]

/-! ### Helper lemmas: the batch loop of `embed_with_cache` -/

/-- The value the batch loop associates to a hash `h`: the model applied
to `texts[hashes.index(h)]`. -/
def firstTextValue {α : Type} (model : String → List α) (texts hashes : List String)
    (h : String) : List α :=
  model (texts.getD (List.indexOf h hashes) "")

theorem batchLoopF_fst_find {α : Type} (model : String → List α)
    (texts hashes : List String) (bs : Nat) (enable : Bool) (hbs : 0 < bs) :
    ∀ (fuel : Nat) (pending : List String) (newEmb cache : Dict (List α)) (h : String),
      pending.length ≤ fuel →
      ((batchLoopF model texts hashes bs enable fuel pending newEmb cache).1).find h =
        if h ∈ pending then some (firstTextValue model texts hashes h)
        else newEmb.find h := by
  intro fuel
  induction fuel with
  | zero =>
    intro pending newEmb cache h hlen
    have hp : pending = [] := List.eq_nil_of_length_eq_zero (Nat.le_zero.mp hlen)
    subst hp
    simp [batchLoopF]
  | succ fuel ih =>
    intro pending newEmb cache h hlen
    by_cases hp : pending = []
    · subst hp
      simp [batchLoopF]
    · have hlen' : (pending.drop bs).length ≤ fuel := by
        have h1 : 0 < pending.length := List.length_pos.mpr hp
        have h2 : (pending.drop bs).length = pending.length - bs := List.length_drop bs pending
        omega
      simp only [batchLoopF, if_neg hp]
      rw [ih (pending.drop bs) _ _ h hlen']
      have hupd : (Dict.update newEmb
          ((pending.take bs).zip (Embedder.embed model ((pending.take bs).map
            fun k => texts.getD (List.indexOf k hashes) "")))).find h =
          if h ∈ pending.take bs then some (firstTextValue model texts hashes h)
          else newEmb.find h := by
        unfold Embedder.embed
        rw [List.map_map]
        exact update_zip_map_find _ (pending.take bs) newEmb h
      rw [hupd]
      have hsplit : pending.take bs ++ pending.drop bs = pending :=
        List.take_append_drop bs pending
      have hmem : h ∈ pending ↔ h ∈ pending.take bs ∨ h ∈ pending.drop bs := by
        conv_lhs => rw [← hsplit]
        exact List.mem_append
      by_cases hdrop : h ∈ pending.drop bs
      · rw [if_pos hdrop, if_pos (hmem.mpr (Or.inr hdrop))]
      · rw [if_neg hdrop]
        by_cases htake : h ∈ pending.take bs
        · rw [if_pos htake, if_pos (hmem.mpr (Or.inl htake))]
        · rw [if_neg htake, if_neg (fun hh => (hmem.mp hh).elim htake hdrop)]

theorem batchLoopF_snd_disabled {α : Type} (model : String → List α)
    (texts hashes : List String) (bs : Nat) :
    ∀ (fuel : Nat) (pending : List String) (newEmb cache : Dict (List α)),
      (batchLoopF model texts hashes bs false fuel pending newEmb cache).2 = cache := by
  intro fuel
  induction fuel with
  | zero => intro pending newEmb cache; simp [batchLoopF]
  | succ fuel ih =>
    intro pending newEmb cache
    by_cases hp : pending = []
    · subst hp; simp [batchLoopF]
    · simp only [batchLoopF, if_neg hp, Bool.false_eq_true, if_false]
      exact ih _ _ _

theorem batchLoopF_snd_enabled {α : Type} (model : String → List α)
    (texts hashes : List String) (bs : Nat) (hbs : 0 < bs) :
    ∀ (fuel : Nat) (pending : List String) (newEmb cache : Dict (List α)) (h : String),
      pending.length ≤ fuel →
      ((batchLoopF model texts hashes bs true fuel pending newEmb cache).2).find h =
        if h ∈ pending then some (firstTextValue model texts hashes h)
        else cache.find h := by
  intro fuel
  induction fuel with
  | zero =>
    intro pending newEmb cache h hlen
    have hp : pending = [] := List.eq_nil_of_length_eq_zero (Nat.le_zero.mp hlen)
    subst hp
    simp [batchLoopF]
  | succ fuel ih =>
    intro pending newEmb cache h hlen
    by_cases hp : pending = []
    · subst hp
      simp [batchLoopF]
    · have hlen' : (pending.drop bs).length ≤ fuel := by
        have h1 : 0 < pending.length := List.length_pos.mpr hp
        have h2 : (pending.drop bs).length = pending.length - bs := List.length_drop bs pending
        omega
      simp only [batchLoopF, if_neg hp, if_true]
      rw [ih (pending.drop bs) _ _ h hlen']
      have hupd : (Embedder.cacheLocally cache (pending.take bs)
          (Embedder.embed model ((pending.take bs).map
            fun k => texts.getD (List.indexOf k hashes) ""))).find h =
          if h ∈ pending.take bs then some (firstTextValue model texts hashes h)
          else cache.find h := by
        unfold Embedder.cacheLocally Embedder.embed
        rw [List.map_map]
        exact update_zip_map_find _ (pending.take bs) cache h
      rw [hupd]
      have hsplit : pending.take bs ++ pending.drop bs = pending :=
        List.take_append_drop bs pending
      have hmem : h ∈ pending ↔ h ∈ pending.take bs ∨ h ∈ pending.drop bs := by
        conv_lhs => rw [← hsplit]
        exact List.mem_append
      by_cases hdrop : h ∈ pending.drop bs
      · rw [if_pos hdrop, if_pos (hmem.mpr (Or.inr hdrop))]
      · rw [if_neg hdrop]
        by_cases htake : h ∈ pending.take bs
        · rw [if_pos htake, if_pos (hmem.mpr (Or.inl htake))]
        · rw [if_neg htake, if_neg (fun hh => (hmem.mp hh).elim htake hdrop)]

/-! ### Helper lemmas: resolution behaviour of `embed_with_cache` -/

/-- The `new_embeddings` dict after the batch loop of `embed_with_cache`. -/
def newEmbOf {α : Type} (E : EmbedderM) (model : String → List α)
    (sbi : String → List (QPoint α)) (cacheDir : Dict (List α))
    (texts : List String) : Dict (List α) :=
  (batchLoopF model texts (hashesOf texts) E.batch_size E.enable_local_cache
    (hashesToEmbed E sbi cacheDir texts).length (hashesToEmbed E sbi cacheDir texts)
    [] cacheDir).1

/-- The state of the local cache directory after `embed_with_cache`. -/
def cacheAfterOf {α : Type} (E : EmbedderM) (model : String → List α)
    (sbi : String → List (QPoint α)) (cacheDir : Dict (List α))
    (texts : List String) : Dict (List α) :=
  (batchLoopF model texts (hashesOf texts) E.batch_size E.enable_local_cache
    (hashesToEmbed E sbi cacheDir texts).length (hashesToEmbed E sbi cacheDir texts)
    [] cacheDir).2

/-- The value the final combination loop of `embed_with_cache` assigns to
one hash. -/
def combineValue {α : Type} (E : EmbedderM) (model : String → List α)
    (sbi : String → List (QPoint α)) (cacheDir : Dict (List α))
    (texts : List String) (h : String) : List α :=
  match (existingOf sbi texts).find h with
  | some v => v
  | none =>
    match (cachedOf E sbi cacheDir texts).find h with
    | some v => v
    | none => ((newEmbOf E model sbi cacheDir texts).find h).getD []

theorem embed_with_cache_eq {α : Type} (E : EmbedderM) (model : String → List α)
    (sbi : String → List (QPoint α)) (cacheDir : Dict (List α))
    (texts : List String) :
    Embedder.embed_with_cache E model sbi cacheDir texts =
      ((hashesOf texts, (hashesOf texts).map (combineValue E model sbi cacheDir texts)),
        cacheAfterOf E model sbi cacheDir texts) := rfl

/-- Collision-freedom of the content hash on a concrete list of texts. -/
def hashInjOn (texts : List String) : Prop :=
  ∀ t1 ∈ texts, ∀ t2 ∈ texts, text_hash t1 = text_hash t2 → t1 = t2

instance (texts : List String) : Decidable (hashInjOn texts) := by
  unfold hashInjOn
  infer_instance

theorem firstTextValue_eq {α : Type} (model : String → List α) (texts : List String)
    (hcf : hashInjOn texts) (t : String) (ht : t ∈ texts) :
    firstTextValue model texts (hashesOf texts) (text_hash t) = model t := by
  unfold firstTextValue hashesOf
  have hmem : text_hash t ∈ List.map text_hash texts := List.mem_map_of_mem text_hash ht
  have hidx : List.indexOf (text_hash t) (List.map text_hash texts) <
      (List.map text_hash texts).length := List.indexOf_lt_length.mpr hmem
  have hit : List.indexOf (text_hash t) (List.map text_hash texts) < texts.length := by
    simpa using hidx
  have h1 : (List.map text_hash texts).get ⟨_, hidx⟩ = text_hash t := List.indexOf_get hidx
  rw [List.get_eq_getElem, List.getElem_map] at h1
  rw [List.getD_eq_getElem texts "" hit]
  rw [hcf _ (List.getElem_mem hit) t ht h1]

theorem combineValue_resolves {α : Type} (E : EmbedderM) (model : String → List α)
    (sbi : String → List (QPoint α)) (cacheDir : Dict (List α)) (texts : List String)
    (hbs : 0 < E.batch_size) (hcf : hashInjOn texts) (t : String) (ht : t ∈ texts) :
    combineValue E model sbi cacheDir texts (text_hash t) =
      resolveText E model sbi cacheDir t := by
  have hmem : text_hash t ∈ hashesOf texts := List.mem_map_of_mem text_hash ht
  unfold combineValue resolveText
  cases hsa : storeAccept sbi (text_hash t) with
  | some v =>
    have hex : (existingOf sbi texts).find (text_hash t) = some v := by
      unfold existingOf
      rw [loadExisting_find, hsa]
      simp [hmem]
    rw [hex]
  | none =>
    have hex : (existingOf sbi texts).find (text_hash t) = none := by
      unfold existingOf
      rw [loadExisting_find, hsa]
    have hrem : text_hash t ∈ remainingOf sbi texts := by
      unfold remainingOf
      refine List.mem_filter.mpr ⟨hmem, ?_⟩
      simp [hex]
    rw [hex]
    cases henb : E.enable_local_cache with
    | false =>
      have hcached : cachedOf E sbi cacheDir texts = [] := by
        unfold cachedOf
        rw [henb]
        rfl
      have hcfind : (cachedOf E sbi cacheDir texts).find (text_hash t) = none := by
        rw [hcached]
        rfl
      have htoE : text_hash t ∈ hashesToEmbed E sbi cacheDir texts := by
        unfold hashesToEmbed
        refine List.mem_filter.mpr ⟨hrem, ?_⟩
        simp [hcfind]
      have hnew : (newEmbOf E model sbi cacheDir texts).find (text_hash t) =
          some (firstTextValue model texts (hashesOf texts) (text_hash t)) := by
        unfold newEmbOf
        rw [batchLoopF_fst_find model texts (hashesOf texts) E.batch_size
          E.enable_local_cache hbs _ _ _ _ _ (le_refl _), if_pos htoE]
      rw [hcfind, hnew]
      simp [firstTextValue_eq model texts hcf t ht]
    | true =>
      have hcached : cachedOf E sbi cacheDir texts =
          Embedder.loadCached cacheDir (remainingOf sbi texts) := by
        unfold cachedOf
        rw [henb]
        rfl
      cases hca : cacheAccept cacheDir (text_hash t) with
      | some v =>
        have hcfind : (cachedOf E sbi cacheDir texts).find (text_hash t) = some v := by
          rw [hcached, loadCached_find, hca]
          simp [hrem]
        rw [hcfind]
        simp
      | none =>
        have hcfind : (cachedOf E sbi cacheDir texts).find (text_hash t) = none := by
          rw [hcached, loadCached_find, hca]
        have htoE : text_hash t ∈ hashesToEmbed E sbi cacheDir texts := by
          unfold hashesToEmbed
          refine List.mem_filter.mpr ⟨hrem, ?_⟩
          simp [hcfind]
        have hnew : (newEmbOf E model sbi cacheDir texts).find (text_hash t) =
            some (firstTextValue model texts (hashesOf texts) (text_hash t)) := by
          unfold newEmbOf
          rw [batchLoopF_fst_find model texts (hashesOf texts) E.batch_size
            E.enable_local_cache hbs _ _ _ _ _ (le_refl _), if_pos htoE]
        rw [hcfind, hnew]
        simp [firstTextValue_eq model texts hcf t ht]

theorem resolved_not_embedded {α : Type} (E : EmbedderM)
    (sbi : String → List (QPoint α)) (cacheDir : Dict (List α))
    (texts : List String) (t : String) (ht : t ∈ texts)
    (hres : (storeAccept sbi (text_hash t)).isSome ∨
      (E.enable_local_cache = true ∧ (cacheAccept cacheDir (text_hash t)).isSome)) :
    text_hash t ∉ hashesToEmbed E sbi cacheDir texts := by
  intro htoE
  have hmem : text_hash t ∈ hashesOf texts := List.mem_map_of_mem text_hash ht
  unfold hashesToEmbed at htoE
  have hrem : text_hash t ∈ remainingOf sbi texts := (List.mem_filter.mp htoE).1
  have hpred2 := (List.mem_filter.mp htoE).2
  rcases hres with hstore | ⟨henb, hcache⟩
  · obtain ⟨v, hv⟩ := Option.isSome_iff_exists.mp hstore
    have hfind : (existingOf sbi texts).find (text_hash t) = some v := by
      unfold existingOf
      rw [loadExisting_find, hv]
      simp [hmem]
    have hpr : ((existingOf sbi texts).find (text_hash t)).isNone = true := by
      have := (List.mem_filter.mp (by unfold remainingOf at hrem; exact hrem)).2
      simpa using this
    rw [hfind] at hpr
    simp at hpr
  · obtain ⟨v, hv⟩ := Option.isSome_iff_exists.mp hcache
    have hfind : (cachedOf E sbi cacheDir texts).find (text_hash t) = some v := by
      unfold cachedOf
      rw [henb, if_pos rfl, loadCached_find, hv]
      simp [hrem]
    have hpr : ((cachedOf E sbi cacheDir texts).find (text_hash t)).isNone = true := by
      simpa using hpred2
    rw [hfind] at hpr
    simp at hpr

theorem cacheAfter_disabled {α : Type} (E : EmbedderM) (model : String → List α)
    (sbi : String → List (QPoint α)) (cacheDir : Dict (List α))
    (texts : List String) (henb : E.enable_local_cache = false) :
    cacheAfterOf E model sbi cacheDir texts = cacheDir := by
  unfold cacheAfterOf
  rw [henb]
  exact batchLoopF_snd_disabled model texts (hashesOf texts) E.batch_size _ _ _ _

theorem cacheAfter_embedded {α : Type} (E : EmbedderM) (model : String → List α)
    (sbi : String → List (QPoint α)) (cacheDir : Dict (List α))
    (texts : List String) (hbs : 0 < E.batch_size) (hcf : hashInjOn texts)
    (henb : E.enable_local_cache = true) (t : String) (ht : t ∈ texts)
    (htoE : text_hash t ∈ hashesToEmbed E sbi cacheDir texts) :
    (cacheAfterOf E model sbi cacheDir texts).find (text_hash t) = some (model t) := by
  unfold cacheAfterOf
  rw [henb]
  rw [batchLoopF_snd_enabled model texts (hashesOf texts) E.batch_size hbs _ _ _ _ _
    (le_refl _)]
  rw [if_pos htoE, firstTextValue_eq model texts hcf t ht]

theorem embed_with_cache_length {α : Type} (E : EmbedderM) (model : String → List α)
    (sbi : String → List (QPoint α)) (cacheDir : Dict (List α))
    (texts : List String) :
    ((Embedder.embed_with_cache E model sbi cacheDir texts).1.2).length = texts.length := by
  rw [embed_with_cache_eq]
  simp [hashesOf]

theorem embed_with_cache_get? {α : Type} (E : EmbedderM) (model : String → List α)
    (sbi : String → List (QPoint α)) (cacheDir : Dict (List α))
    (texts : List String) (hbs : 0 < E.batch_size) (hcf : hashInjOn texts)
    (i : Nat) (t : String) (hti : texts[i]? = some t) :
    ((Embedder.embed_with_cache E model sbi cacheDir texts).1.2)[i]? =
      some (resolveText E model sbi cacheDir t) := by
  rw [embed_with_cache_eq]
  show ((hashesOf texts).map (combineValue E model sbi cacheDir texts))[i]? = _
  rw [List.getElem?_map]
  unfold hashesOf
  rw [List.getElem?_map, hti]
  simp only [Option.map_some']
  rw [combineValue_resolves E model sbi cacheDir texts hbs hcf t (List.getElem?_mem hti)]

/-! ### Helper lemmas: the chunking loop -/

theorem chunkLoopF_isSome (cs ol : Nat) (text : List Char)
    (offsets : List (Nat × Nat)) (n : Nat) (hol : ol < cs) :
    ∀ (fuel start : Nat), n - start < fuel →
      (chunkLoopF cs ol text offsets n fuel start).isSome := by
  intro fuel
  induction fuel with
  | zero => intro start h; omega
  | succ fuel ih =>
    intro start h
    by_cases hlt : start < n
    · have hstep : n - (start + (cs - ol)) < fuel := by omega
      have hrec := ih (start + (cs - ol)) hstep
      simp only [chunkLoopF, if_pos hlt]
      cases hrc : chunkLoopF cs ol text offsets n fuel (start + (cs - ol)) with
      | none => rw [hrc] at hrec; simp at hrec
      | some rest => simp
    · simp [chunkLoopF, hlt]

theorem chunkLoopF_eq_starts (cs ol : Nat) (text : List Char)
    (offsets : List (Nat × Nat)) (n : Nat) (hol : ol < cs) :
    ∀ (fuel start : Nat), n - start < fuel →
      chunkLoopF cs ol text offsets n fuel start =
        some ((chunkStartsF (cs - ol) n fuel start).filterMap fun s =>
          if (tokenSlice text offsets cs s).all Char.isWhitespace then none
          else some (String.mk (tokenSlice text offsets cs s))) := by
  intro fuel
  induction fuel with
  | zero => intro start h; omega
  | succ fuel ih =>
    intro start h
    by_cases hlt : start < n
    · have hstep : n - (start + (cs - ol)) < fuel := by omega
      simp only [chunkLoopF, chunkStartsF, if_pos hlt]
      rw [ih _ hstep]
      simp only [List.filterMap_cons]
      by_cases hws : (tokenSlice text offsets cs start).all Char.isWhitespace
      · simp [hws]
      · simp [hws]
    · simp [chunkLoopF, chunkStartsF, hlt]

theorem chunk_eq_filterMap (cs ol : Nat) (tok : TokenizerOut) (text : String)
    (hol : ol < cs) (hnb : pyBlank text = false) (hne : tok.input_ids ≠ []) :
    Chunker.chunk cs ol tok text =
      (chunkStarts (cs - ol) tok.input_ids.length).filterMap fun s =>
        if (tokenSlice text.data tok.offset_mapping cs s).all Char.isWhitespace then none
        else some (String.mk (tokenSlice text.data tok.offset_mapping cs s)) := by
  unfold Chunker.chunk chunkStarts
  rw [hnb]
  simp only [Bool.false_eq_true, if_false]
  rw [if_neg (by simpa [List.isEmpty_iff] using hne)]
  rw [chunkLoopF_eq_starts cs ol text.data tok.offset_mapping tok.input_ids.length hol
    (tok.input_ids.length + 1) 0 (by omega)]
  rfl

/-! ### Helper lemmas: upsert semantics and payloads -/

theorem upsertOne_id_nodup {α : Type} (s : List (Point α)) (p : Point α)
    (h : (s.map Point.id).Nodup) : ((upsertOne s p).map Point.id).Nodup := by
  unfold upsertOne
  rw [List.map_append]
  refine List.Nodup.append ?_ (by simp) ?_
  · exact h.sublist ((List.filter_sublist s).map Point.id)
  · intro a ha hb
    obtain ⟨q, hq, hqa⟩ := List.mem_map.mp ha
    have hne : q.id ≠ p.id := by
      have := (List.mem_filter.mp hq).2
      simpa using this
    have hap : a = p.id := by simpa using hb
    exact hne (hqa.symm ▸ hap ▸ rfl)

theorem upsert_id_nodup {α : Type} (ps : List (Point α)) :
    ∀ (s : List (Point α)), (s.map Point.id).Nodup →
      ((VectorStore.upsert s ps).map Point.id).Nodup := by
  induction ps with
  | nil => intro s h; exact h
  | cons p ps ih =>
    intro s h
    exact ih (upsertOne s p) (upsertOne_id_nodup s p h)

theorem countId_eq_zero {α : Type} (s : List (Point α)) (i : String)
    (h : i ∉ s.map Point.id) : countId s i = 0 := by
  unfold countId
  rw [List.length_eq_zero]
  rw [List.filter_eq_nil_iff]
  intro p hp
  simp only [decide_eq_true_eq]
  intro hpi
  exact h (hpi ▸ List.mem_map_of_mem Point.id hp)

theorem countId_le_one {α : Type} :
    ∀ (s : List (Point α)), (s.map Point.id).Nodup → ∀ (i : String), countId s i ≤ 1 := by
  intro s
  induction s with
  | nil => intro _ i; simp [countId]
  | cons p rest ih =>
    intro h i
    rw [List.map_cons, List.nodup_cons] at h
    unfold countId
    by_cases hpi : p.id = i
    · rw [List.filter_cons_of_pos (by simp [hpi])]
      have hz : countId rest i = 0 := countId_eq_zero rest i (hpi ▸ h.1)
      unfold countId at hz
      simp [hz]
    · rw [List.filter_cons_of_neg (by simp [hpi])]
      have := ih h.2 i
      unfold countId at this
      exact this

theorem assemblePoints_map_id {α : Type} :
    ∀ (hs : List String) (es : List (List α)) (ps : List (Dict PyVal)),
      hs.length = es.length → hs.length = ps.length →
      (assemblePoints hs es ps).map Point.id = hs := by
  intro hs
  induction hs with
  | nil => intro es ps _ _; rfl
  | cons h hs ih =>
    intro es ps h1 h2
    cases es with
    | nil => simp at h1
    | cons e es =>
      cases ps with
      | nil => simp at h2
      | cons q ps =>
        have t1 : hs.length = es.length := by simpa using h1
        have t2 : hs.length = ps.length := by simpa using h2
        simp only [assemblePoints, List.zip_cons_cons, List.map_cons]
        have := ih es ps t1 t2
        unfold assemblePoints at this
        rw [this]

theorem Dict.find_eq_none_of_key_not_mem {β : Type} (m : Dict β) (k : String)
    (h : k ∉ m.map Prod.fst) : m.find k = none := by
  induction m with
  | nil => rfl
  | cons kv rest ih =>
    obtain ⟨k0, v0⟩ := kv
    have hne : k0 ≠ k := by
      intro he
      exact h (he ▸ List.mem_cons_self _ _)
    have hnm : k ∉ rest.map Prod.fst := fun hm => h (List.mem_cons_of_mem _ hm)
    simp only [Dict.find, if_neg hne]
    exact ih hnm

theorem Dict.find_update_of_nodup {β : Type} (m : Dict β) :
    ((m.map Prod.fst).Nodup) → ∀ (d : Dict β) (k : String),
      (Dict.update d m).find k =
        match m.find k with
        | some v => some v
        | none => d.find k := by
  induction m with
  | nil =>
    intro _ d k
    rfl
  | cons kv rest ih =>
    intro hnd d k
    obtain ⟨k0, v0⟩ := kv
    rw [List.map_cons] at hnd
    have hpair := List.nodup_cons.mp hnd
    have hk0 : k0 ∉ rest.map Prod.fst := hpair.1
    have hrest : (rest.map Prod.fst).Nodup := hpair.2
    have hupd : Dict.update d ((k0, v0) :: rest) = Dict.update (d.insert k0 v0) rest := rfl
    rw [hupd, ih hrest]
    by_cases hk : k0 = k
    · subst hk
      have hz : Dict.find rest k0 = none := Dict.find_eq_none_of_key_not_mem rest k0 hk0
      rw [hz]
      simp [Dict.find, Dict.find_insert]
    · simp only [Dict.find, if_neg hk]
      cases hfk : Dict.find rest k with
      | none => simp [hfk, Dict.find_insert, hk]
      | some v => simp [hfk]

theorem validate_ok_iff (c : ChunkerConfig) :
    c.validate = Except.ok () ↔ 0 < c.chunk_size ∧ c.overlap < c.chunk_size := by
  constructor
  · intro h
    unfold ChunkerConfig.validate at h
    by_cases h1 : c.chunk_size = 0
    · rw [if_pos h1] at h
      exact Except.noConfusion h
    · by_cases h2 : c.chunk_size ≤ c.overlap
      · rw [if_neg h1, if_pos h2] at h
        exact Except.noConfusion h
      · omega
  · intro h
    unfold ChunkerConfig.validate
    rw [if_neg (by omega), if_neg (by omega)]

/-! ### Claim theorems -/

/-- C5: for every non-blank text with a non-empty tokenization and every
validated chunker configuration, `chunk` produces exactly the slices of
the original text at token spans `[start, start+chunk_size)` for starts
advancing by `chunk_size - overlap` from 0 while below the token count,
dropping blank slices; and with `chunk_size = 10`, `overlap = 3` a
25-token text yields chunk start offsets `[0, 7, 14, 21]`. -/
theorem c5_chunk_boundaries (cfg : ChunkerConfig) (tok : TokenizerOut) (text : String)
    (hval : cfg.validate = Except.ok ()) (hnb : pyBlank text = false)
    (hne : tok.input_ids ≠ []) :
    Chunker.chunk cfg.chunk_size cfg.overlap tok text =
      (chunkStarts (cfg.chunk_size - cfg.overlap) tok.input_ids.length).filterMap
        (fun s =>
          if (tokenSlice text.data tok.offset_mapping cfg.chunk_size s).all
            Char.isWhitespace then none
          else some (String.mk (tokenSlice text.data tok.offset_mapping cfg.chunk_size s)))
      ∧ chunkStarts (10 - 3) 25 = [0, 7, 14, 21] := by
  refine ⟨?_, by decide⟩
  exact chunk_eq_filterMap cfg.chunk_size cfg.overlap tok text
    ((validate_ok_iff cfg).mp hval).2 hnb hne

/-- Witness for C5 at a concrete 25-token, 25-character text. -/
theorem c5_chunk_boundaries_witness :
    (ChunkerConfig.mk 10 3).validate = Except.ok () ∧
    pyBlank "abcdefghijklmnopqrstuvwxy" = false ∧
    Chunker.chunk 10 3
      ⟨List.replicate 25 1, (List.range 25).map fun i => (i, i + 1)⟩
      "abcdefghijklmnopqrstuvwxy" =
      ["abcdefghij", "hijklmnopq", "opqrstuvwx", "vwxy"] := by
  refine ⟨rfl, by decide, ?_⟩
  have h := c5_chunk_boundaries ⟨10, 3⟩
    ⟨List.replicate 25 1, (List.range 25).map fun i => (i, i + 1)⟩
    "abcdefghijklmnopqrstuvwxy" rfl (by decide) (by decide)
  exact h.1.trans (by decide)

/-- C7: for every configuration accepted by `ChunkerConfig.__post_init__`
(`chunk_size > 0`, `0 ≤ overlap < chunk_size`, which includes the boundary
`overlap = chunk_size - 1`), the chunking loop finishes within
`token_count + 1` iterations on every input, rather than looping
forever. -/
theorem c7_chunk_terminates (cfg : ChunkerConfig) (tok : TokenizerOut) (text : String)
    (hval : cfg.validate = Except.ok ()) :
    (chunkLoopF cfg.chunk_size cfg.overlap text.data tok.offset_mapping
      tok.input_ids.length (tok.input_ids.length + 1) 0).isSome = true := by
  exact chunkLoopF_isSome cfg.chunk_size cfg.overlap text.data tok.offset_mapping
    tok.input_ids.length ((validate_ok_iff cfg).mp hval).2 (tok.input_ids.length + 1) 0
    (by omega)

/-- Witness for C7 at the boundary configuration `overlap = chunk_size - 1`. -/
theorem c7_chunk_terminates_witness :
    (ChunkerConfig.mk 5 4).validate = Except.ok () ∧
    (chunkLoopF 5 4 "hello world tokens".data
      ((List.range 6).map fun i => (3 * i, 3 * i + 3)) 6 (6 + 1) 0).isSome = true := by
  refine ⟨rfl, ?_⟩
  exact c7_chunk_terminates ⟨5, 4⟩
    ⟨List.replicate 6 1, (List.range 6).map fun i => (3 * i, 3 * i + 3)⟩
    "hello world tokens" rfl

/-- C9: on a `VectorIndex` whose `initialize` has not run, both
`index_document` and `search` raise the `assert_initialized`
`RuntimeError` immediately, before any chunking, embedding or store
operation, and leave the store and cache state untouched. -/
theorem c9_fail_fast_uninitialized {α : Type} (ix : VectorIndexSt) (S : Steps α)
    (sys : Sys α) (text : String) (metadata : Dict PyVal)
    (skip_existing force_reindex : Bool) (query : String) (top_k : Nat)
    (hninit : ix.initialized = false) :
    VectorIndex.index_document ix S sys text metadata skip_existing force_reindex =
      (Except.error pyNotInit, sys) ∧
    VectorIndex.search ix S sys query top_k = (Except.error pyNotInit, sys) := by
  unfold VectorIndex.index_document VectorIndex.search
  rw [hninit]
  exact ⟨rfl, rfl⟩

/-- Witness for C9 on a freshly constructed `VectorIndex`. -/
theorem c9_fail_fast_uninitialized_witness :
    (VectorIndexSt.mk none none none none false).initialized = false ∧
    VectorIndex.index_document (α := Nat) ⟨none, none, none, none, false⟩
      ⟨fun _ => Except.ok [], fun _ _ s => (Except.ok 0, s),
       fun _ s => (Except.ok ([], []), s), fun _ s => (Except.ok (), s),
       fun _ => Except.ok [], fun _ _ s => (Except.ok [], s)⟩
      ⟨[], []⟩ "some text" [] true false = (Except.error pyNotInit, ⟨[], []⟩) :=
  ⟨rfl,
   (c9_fail_fast_uninitialized ⟨none, none, none, none, false⟩
     ⟨fun _ => Except.ok [], fun _ _ s => (Except.ok 0, s),
      fun _ s => (Except.ok ([], []), s), fun _ s => (Except.ok (), s),
      fun _ => Except.ok [], fun _ _ s => (Except.ok [], s)⟩
     ⟨[], []⟩ "some text" [] true false "query" 5 rfl).1⟩

/-- C10: calling `initialize` on an already-initialized `VectorIndex` is a
silent no-op: whatever configuration is passed (even a different or
invalid one), the stored `config`, `chunker`, `embedder` and
`vector_store` fields are unchanged and no error is raised. -/
theorem c10_reinitialize_noop (modelDim : String → Nat) (ix : VectorIndexSt)
    (cfg : VectorIndexConfig) (hinit : ix.initialized = true) :
    VectorIndexSt.setup modelDim ix cfg = Except.ok ix := by
  unfold VectorIndexSt.setup
  rw [hinit]
  rfl

/-- Witness for C10: re-initializing with a different configuration
returns the untouched instance. -/
theorem c10_reinitialize_noop_witness :
    (VectorIndexSt.mk (some ⟨256, 64⟩) (some ⟨32, false, none⟩)
      (some ⟨"documents", "data/qdrant_db", 384, "cosine"⟩) none true).initialized = true ∧
    VectorIndexSt.setup (fun _ => 768)
      ⟨some ⟨256, 64⟩, some ⟨32, false, none⟩,
       some ⟨"documents", "data/qdrant_db", 384, "cosine"⟩, none, true⟩
      ⟨⟨"other-model", "cuda"⟩, ⟨128, 16⟩, ⟨8, some "cache", 1000, true⟩,
       ⟨"other", "elsewhere", "dot"⟩⟩ =
      Except.ok ⟨some ⟨256, 64⟩, some ⟨32, false, none⟩,
        some ⟨"documents", "data/qdrant_db", 384, "cosine"⟩, none, true⟩ :=
  ⟨rfl,
   c10_reinitialize_noop (fun _ => 768)
     ⟨some ⟨256, 64⟩, some ⟨32, false, none⟩,
      some ⟨"documents", "data/qdrant_db", 384, "cosine"⟩, none, true⟩
     ⟨⟨"other-model", "cuda"⟩, ⟨128, 16⟩, ⟨8, some "cache", 1000, true⟩,
      ⟨"other", "elsewhere", "dot"⟩⟩ rfl⟩

/-- C4: `embed_with_cache` output follows input order: the returned hash
list is exactly the texts' content hashes in order, the vector list has
one entry per text, and the i-th vector is the resolution (store tier,
cache tier, or fresh computation) of the i-th input text.  As everywhere
in this pipeline, text identity is its MD5 hash, so the input list must
be collision-free; the store tier is the oracle behaviour of the
`search_by_id` lookup the code performs (see the C2 result for the
composition with the repository's own `VectorStore`). -/
theorem c4_output_order {α : Type} (E : EmbedderM) (model : String → List α)
    (sbi : String → List (QPoint α)) (cacheDir : Dict (List α))
    (texts : List String) (hbs : 0 < E.batch_size) (hcf : hashInjOn texts) :
    (Embedder.embed_with_cache E model sbi cacheDir texts).1.1 = texts.map text_hash ∧
    ((Embedder.embed_with_cache E model sbi cacheDir texts).1.2).length = texts.length ∧
    ∀ (i : Nat) (t : String), texts[i]? = some t →
      ((Embedder.embed_with_cache E model sbi cacheDir texts).1.2)[i]? =
        some (resolveText E model sbi cacheDir t) :=
  ⟨rfl, embed_with_cache_length E model sbi cacheDir texts,
   fun i t hti => embed_with_cache_get? E model sbi cacheDir texts hbs hcf i t hti⟩

set_option maxRecDepth 100000 in
/-- Witness for C4 on two distinct texts with an empty store and cache. -/
theorem c4_output_order_witness :
    (0 : Nat) < (1 : Nat) ∧ hashInjOn ["a", "b"] ∧
    ((Embedder.embed_with_cache (α := Nat) ⟨1, false⟩ (fun _ => [7])
      (fun _ => []) [] ["a", "b"]).1.2)[1]? =
      some (resolveText ⟨1, false⟩ (fun _ => [7]) (fun _ => []) [] "b") :=
  ⟨by decide, by decide,
   (c4_output_order ⟨1, false⟩ (fun _ => [7]) (fun _ => []) [] ["a", "b"]
     (by decide) (by decide)).2.2 1 "b" rfl⟩

/-- C2 (code evaluation): `embed_with_cache`, composed with the
repository's own `VectorStore` as its `vector_store` parameter is typed,
raises `AttributeError` at the first store-tier lookup
(`vector_store.search_by_id` does not exist; the class defines
`search_by_ids`), so no text is ever resolved from any tier. -/
theorem c2_store_tier_raises :
    embedWithCacheActual (α := Nat) ⟨32, false⟩ (fun _ => [0]) [] ["hello"] =
      Except.error ⟨"AttributeError", "'VectorStore' object has no attribute 'search_by_id'"⟩ := rfl

/-- C8: a chunk's point id is the MD5 hex digest of the UTF-8 encoded
chunk text (a pure function of the text), and upserting the assembled
points into a store with unique ids keeps ids unique: re-indexing
identical text can never create a second entry under the same id. -/
theorem c8_hash_ids_and_upsert_dedupe {α : Type} (E : EmbedderM)
    (model : String → List α) (sbi : String → List (QPoint α))
    (cacheDir : Dict (List α)) (chunks : List String)
    (payloads : List (Dict PyVal)) (store : List (Point α))
    (hp : payloads.length = chunks.length)
    (hnd : (store.map Point.id).Nodup) :
    (∀ s : String, text_hash s = md5Hex (utf8Bytes s)) ∧
    (assemblePoints (Embedder.embed_with_cache E model sbi cacheDir chunks).1.1
        (Embedder.embed_with_cache E model sbi cacheDir chunks).1.2 payloads).map
        Point.id = chunks.map (fun c => md5Hex (utf8Bytes c)) ∧
    ((VectorStore.upsert store
        (assemblePoints (Embedder.embed_with_cache E model sbi cacheDir chunks).1.1
          (Embedder.embed_with_cache E model sbi cacheDir chunks).1.2 payloads)).map
        Point.id).Nodup ∧
    ∀ i : String, countId (VectorStore.upsert store
        (assemblePoints (Embedder.embed_with_cache E model sbi cacheDir chunks).1.1
          (Embedder.embed_with_cache E model sbi cacheDir chunks).1.2 payloads)) i ≤ 1 := by
  have hids : (assemblePoints (Embedder.embed_with_cache E model sbi cacheDir chunks).1.1
      (Embedder.embed_with_cache E model sbi cacheDir chunks).1.2 payloads).map Point.id =
      chunks.map (fun c => md5Hex (utf8Bytes c)) := by
    have h1 : ((Embedder.embed_with_cache E model sbi cacheDir chunks).1.1).length =
        ((Embedder.embed_with_cache E model sbi cacheDir chunks).1.2).length := by
      rw [embed_with_cache_length E model sbi cacheDir chunks]
      show (chunks.map text_hash).length = chunks.length
      exact List.length_map ..
    have h2 : ((Embedder.embed_with_cache E model sbi cacheDir chunks).1.1).length =
        payloads.length := by
      rw [hp]
      show (chunks.map text_hash).length = chunks.length
      exact List.length_map ..
    rw [assemblePoints_map_id _ _ _ h1 h2]
    rfl
  have hnodup : ((VectorStore.upsert store
      (assemblePoints (Embedder.embed_with_cache E model sbi cacheDir chunks).1.1
        (Embedder.embed_with_cache E model sbi cacheDir chunks).1.2 payloads)).map
      Point.id).Nodup := upsert_id_nodup _ store hnd
  exact ⟨fun _ => rfl, hids, hnodup, fun i => countId_le_one _ hnodup i⟩

/-- Witness for C8: indexing two chunks with identical text leaves at most
one store entry under their (shared) MD5 id. -/
theorem c8_hash_ids_and_upsert_dedupe_witness :
    ([("doc_id", PyVal.s "d")], [("doc_id", PyVal.s "d")]).1.length = 1 ∧
    countId (VectorStore.upsert ([] : List (Point Nat))
      (assemblePoints
        (Embedder.embed_with_cache (α := Nat) ⟨1, false⟩ (fun _ => [7]) (fun _ => []) []
          ["x", "x"]).1.1
        (Embedder.embed_with_cache (α := Nat) ⟨1, false⟩ (fun _ => [7]) (fun _ => []) []
          ["x", "x"]).1.2
        [[("doc_id", PyVal.s "d")], [("doc_id", PyVal.s "d")]]))
      (text_hash "x") ≤ 1 :=
  ⟨rfl,
   (c8_hash_ids_and_upsert_dedupe ⟨1, false⟩ (fun _ => [7]) (fun _ => []) []
     ["x", "x"] [[("doc_id", PyVal.s "d")], [("doc_id", PyVal.s "d")]] []
     rfl List.nodup_nil).2.2.2 (text_hash "x")⟩

/-- C3 (counterexample): the payload dict literal lists the reserved keys
first and then splats `**metadata`, so a caller metadata entry named
`doc_id` overwrites the indexer's document id in the stored payload —
the claim that metadata never overrides a reserved key is false. -/
theorem c3_metadata_overrides_counterexample :
    (buildPayload "d0" 0 "c0" [("doc_id", PyVal.s "evil")]).find "doc_id" =
      some (PyVal.s "evil") ∧ PyVal.s "evil" ≠ PyVal.s "d0" := by
  decide

/-- C3 (amended): every chunk's payload is built with the reserved keys
`doc_id`, `chunk_id` and `chunk_text` set by the indexer and the caller
metadata merged afterwards; since the metadata is merged last, a metadata
key equal to a reserved key overrides the indexer's value, and whenever
the metadata avoids the three reserved keys the reserved values are
exactly the indexer's while every metadata entry is preserved. -/
theorem c3_payload_reserved_keys (doc_id : String) (chunks : List String)
    (metadata : Dict PyVal)
    (hmk : (metadata.map Prod.fst).Nodup)
    (hres : ∀ kv ∈ metadata,
      kv.1 ≠ "doc_id" ∧ kv.1 ≠ "chunk_id" ∧ kv.1 ≠ "chunk_text") :
    ∀ (i : Nat) (c : String), chunks[i]? = some c →
      (buildPayloads doc_id chunks metadata)[i]? =
        some (buildPayload doc_id i c metadata) ∧
      (buildPayload doc_id i c metadata).find "doc_id" = some (PyVal.s doc_id) ∧
      (buildPayload doc_id i c metadata).find "chunk_id" = some (PyVal.n i) ∧
      (buildPayload doc_id i c metadata).find "chunk_text" = some (PyVal.s c) ∧
      ∀ (k : String) (v : PyVal), metadata.find k = some v →
        (buildPayload doc_id i c metadata).find k = some v := by
  intro i c hic
  have hnone : ∀ (rk : String), (∀ kv ∈ metadata, kv.1 ≠ rk) →
      metadata.find rk = none := by
    intro rk hrk
    apply Dict.find_eq_none_of_key_not_mem
    intro hmem
    obtain ⟨kv, hkv, hfst⟩ := List.mem_map.mp hmem
    exact hrk kv hkv hfst
  have hfind := Dict.find_update_of_nodup metadata hmk
  refine ⟨?_, ?_, ?_, ?_, ?_⟩
  · unfold buildPayloads
    rw [List.getElem?_map, List.getElem?_enum, hic]
    rfl
  · unfold buildPayload
    rw [hfind, hnone "doc_id" (fun kv hkv => (hres kv hkv).1)]
    rfl
  · unfold buildPayload
    rw [hfind, hnone "chunk_id" (fun kv hkv => (hres kv hkv).2.1)]
    rfl
  · unfold buildPayload
    rw [hfind, hnone "chunk_text" (fun kv hkv => (hres kv hkv).2.2)]
    rfl
  · intro k v hkv
    unfold buildPayload
    rw [hfind, hkv]

/-- Witness for C3 (amended) at a one-chunk document with metadata
avoiding the reserved keys. -/
theorem c3_payload_reserved_keys_witness :
    ((([("source", PyVal.s "unit-test")] : Dict PyVal).map Prod.fst).Nodup) ∧
    (buildPayload "d0" 0 "c0" [("source", PyVal.s "unit-test")]).find "doc_id" =
      some (PyVal.s "d0") :=
  ⟨by decide,
   (c3_payload_reserved_keys "d0" ["c0"] [("source", PyVal.s "unit-test")]
     (by decide) (by decide) 0 "c0" rfl).2.1⟩

/-- C1 (code evaluation): on an initialized index with an empty store,
indexing a non-blank unseen document returns `failed` — not `indexed` —
because line 182 calls `embed_with_cache` without its required
`vector_store` argument; the second identical call also returns `failed`
rather than `skipped`, since nothing was stored. -/
theorem c1_index_document_never_indexes :
    (let S : Steps Nat :=
      ⟨chunkStepOf 10 3 (fun _ => Except.ok ⟨[1, 2], [(0, 5), (6, 11)]⟩),
       probeStepOf, embedStepCallsite, upsertStepOf,
       fun _ => Except.ok [], fun _ _ s => (Except.ok [], s)⟩
     let ix : VectorIndexSt := ⟨some ⟨10, 3⟩, some ⟨32, false, none⟩,
       some ⟨"documents", "data/qdrant_db", 4, "cosine"⟩, none, true⟩
     let sys : Sys Nat := ⟨[], []⟩
     let r1 := VectorIndex.index_document ix S sys "hello world" [] true false
     r1.1 = Except.ok ⟨hashDocument "hello world", "failed",
       some ("TypeError" ++ ": " ++
         "Embedder.embed_with_cache() missing 1 required positional argument: 'vector_store'"),
       0, 0⟩ ∧
     r1.2 = sys ∧
     (VectorIndex.index_document ix S r1.2 "hello world" [] true false).1 = r1.1) :=
  ⟨rfl, rfl, rfl⟩

/-- C6: with an initialized index, a non-blank text and a successful
(or skipped) existence probe, `index_document` never lets an exception
escape; an exception raised by the chunking step, the embedding step or
the store upsert is caught and converted into a `failed` result whose
message is the exception's class name and message. -/
theorem c6_exceptions_converted {α : Type} (ix : VectorIndexSt) (S : Steps α)
    (sys : Sys α) (text : String) (metadata : Dict PyVal)
    (skip_existing force_reindex : Bool)
    (hinit : ix.initialized = true) (hnb : pyBlank text = false)
    (hreach : (skip_existing && !force_reindex) = false ∨
      S.probeStep (hashDocument text) metadata sys = (Except.ok 0, sys)) :
    (∀ e : PyErr,
      (VectorIndex.index_document ix S sys text metadata skip_existing
        force_reindex).1 ≠ Except.error e) ∧
    (∀ e : PyErr, S.chunkStep text = Except.error e →
      VectorIndex.index_document ix S sys text metadata skip_existing force_reindex =
        (Except.ok ⟨hashDocument text, "failed",
          some (e.className ++ ": " ++ e.msg), 0, 0⟩, sys)) ∧
    (∀ (chunks : List String) (e : PyErr) (sys1 : Sys α),
      S.chunkStep text = Except.ok chunks → chunks.isEmpty = false →
      S.embedStep chunks sys = (Except.error e, sys1) →
      VectorIndex.index_document ix S sys text metadata skip_existing force_reindex =
        (Except.ok ⟨hashDocument text, "failed",
          some (e.className ++ ": " ++ e.msg), 0, 0⟩, sys1)) ∧
    (∀ (chunks : List String) (he : List String × List (List α)) (sys1 : Sys α)
        (e : PyErr) (sys2 : Sys α),
      S.chunkStep text = Except.ok chunks → chunks.isEmpty = false →
      S.embedStep chunks sys = (Except.ok he, sys1) →
      (assemblePoints he.1 he.2
        (buildPayloads (hashDocument text) chunks metadata)).isEmpty = false →
      S.upsertStep (assemblePoints he.1 he.2
        (buildPayloads (hashDocument text) chunks metadata)) sys1 =
        (Except.error e, sys2) →
      VectorIndex.index_document ix S sys text metadata skip_existing force_reindex =
        (Except.ok ⟨hashDocument text, "failed",
          some (e.className ++ ": " ++ e.msg), 0, 0⟩, sys2)) := by
  have hD : VectorIndex.index_document ix S sys text metadata skip_existing
      force_reindex =
      indexCatch (hashDocument text)
        (indexTryBody S sys (hashDocument text) text metadata) := by
    unfold VectorIndex.index_document
    rcases hreach with hsf | hpr
    · simp [hinit, hnb, hsf]
    · by_cases hsf : (skip_existing && !force_reindex) = true
      · simp [hinit, hnb, hsf, hpr]
      · simp [hinit, hnb, hsf]
  refine ⟨?_, ?_, ?_, ?_⟩
  · intro e
    rw [hD]
    unfold indexTryBody
    cases hc : S.chunkStep text with
    | error e1 => simp [indexCatch]
    | ok chunks =>
      by_cases hce : chunks.isEmpty
      · simp [hce, indexCatch]
      · cases hem : S.embedStep chunks sys with
        | mk res sys1 =>
          cases res with
          | error e1 => simp [hem, hce, indexCatch]
          | ok he =>
            by_cases hpe : (assemblePoints he.1 he.2
              (buildPayloads (hashDocument text) chunks metadata)).isEmpty
            · simp [hem, hce, hpe, indexCatch]
            · cases hup : S.upsertStep (assemblePoints he.1 he.2
                (buildPayloads (hashDocument text) chunks metadata)) sys1 with
              | mk res2 sys2 =>
                cases res2 with
                | error e2 => simp [hem, hce, hpe, hup, indexCatch]
                | ok u => simp [hem, hce, hpe, hup, indexCatch]
  · intro e hc
    rw [hD]
    unfold indexTryBody
    rw [hc]
    rfl
  · intro chunks e sys1 hc hce hem
    rw [hD]
    unfold indexTryBody
    rw [hc]
    simp [hce, hem, indexCatch]
  · intro chunks he sys1 e sys2 hc hce hem hpe hup
    rw [hD]
    unfold indexTryBody
    rw [hc]
    simp [hce, hem, hpe, hup, indexCatch]

/-- Witness for C6: a chunking exception on a concrete initialized index
is converted into a `failed` result and does not propagate. -/
theorem c6_exceptions_converted_witness :
    pyBlank "hello" = false ∧
    VectorIndex.index_document (α := Nat) ⟨none, none, none, none, true⟩
      ⟨fun _ => Except.error ⟨"ValueError", "boom"⟩, fun _ _ s => (Except.ok 0, s),
       fun _ s => (Except.ok ([], []), s), fun _ s => (Except.ok (), s),
       fun _ => Except.ok [], fun _ _ s => (Except.ok [], s)⟩
      ⟨[], []⟩ "hello" [] false false =
      (Except.ok ⟨hashDocument "hello", "failed",
        some ("ValueError" ++ ": " ++ "boom"), 0, 0⟩, ⟨[], []⟩) :=
  ⟨by decide,
   (c6_exceptions_converted (α := Nat) ⟨none, none, none, none, true⟩
     ⟨fun _ => Except.error ⟨"ValueError", "boom"⟩, fun _ _ s => (Except.ok 0, s),
      fun _ s => (Except.ok ([], []), s), fun _ s => (Except.ok (), s),
      fun _ => Except.ok [], fun _ _ s => (Except.ok [], s)⟩
     ⟨[], []⟩ "hello" [] false false rfl (by decide)
     (Or.inl rfl)).2.1 ⟨"ValueError", "boom"⟩ rfl⟩

end RagBr
